import Mathlib

/-!
Verification development for the textio repository: a configurable text
tokenizer that splits one in-memory byte stream into tokens with a literal
or compiled-pattern delimiter, optionally normalizes and filters each token,
and supports batch (`ReadTokens`) and streaming (`StreamTokens`) consumption.

Bytes are modelled as `List Char`; Go strings become `List Char` values.
A compiled regular expression is modelled abstractly by its `FindIndex`
behaviour: a function from a buffer to the leftmost match as
`(start, width)`, `none` when there is no match.  The `bufio.Scanner`
driving loop is modelled by structural recursion with a fuel argument that
is always large enough (`length + 1`) for the delimiters the code can
reach, since every emitted token consumes at least one byte of the buffer
when the delimiter is non-empty.
-/

namespace Textio

/-- Abstract match function: the `FindIndex` face of a compiled pattern.
Returns the leftmost match as (start index, width). -/
def FindFn : Type := List Char → Option (Nat × Nat)

/-- Leftmost index of `sep` as a contiguous sublist of `data`; models
`bytes.Index` / the index used by `strings.Cut`. -/
def litIndex (sep : List Char) : List Char → Option Nat
  | [] => if sep.isPrefixOf ([] : List Char) then some 0 else none
  | c :: rest =>
      if sep.isPrefixOf (c :: rest) then some 0
      else (litIndex sep rest).map (· + 1)

/-- The find function of a literal (string) delimiter: leftmost occurrence,
width is the delimiter length.  Models the `strings.Cut` branch of
`createSplitFunc` in reader.go. -/
def strFind (sep : List Char) : FindFn :=
  fun data => (litIndex sep data).map (fun i => (i, sep.length))

/-- A find function is sane when every reported match is non-empty and lies
inside the buffer.  `regexp.FindIndex` always reports in-bounds matches;
non-empty-match is required for the scanner to make progress (an
empty-width delimiter makes `bufio` panic on the Go side). -/
def saneFind (find : FindFn) : Prop :=
  ∀ data i w, find data = some (i, w) → 1 ≤ w ∧ i + w ≤ data.length

/-- The scan loop of `bufio.Scanner` over the split function built by
`createSplitFunc` (reader.go), with the whole input in the buffer and
`atEOF = true`:
if the buffer is empty, stop with no token; if the delimiter matches at
`(i, w)`, emit `data[:i]` and continue after `i+w`; otherwise emit the
whole rest as a final token.  `fuel` bounds the recursion and is always
instantiated with more than `data.length`, which suffices whenever `find`
only returns non-empty matches. -/
def scanFind (find : FindFn) : Nat → List Char → List (List Char)
  | 0, _ => []
  | fuel + 1, data =>
      if data.isEmpty then []
      else
        match find data with
        | some iw => data.take iw.1 :: scanFind find fuel (data.drop (iw.1 + iw.2))
        | none => [data]

/-- Modelled from the spec, not from the code: the reference split of an
input on a delimiter (section 8 of the spec, "a reference split of the
input on `D`"): the input is divided at every leftmost match, and the text
after the last match is the final component, so a trailing delimiter
yields a trailing empty component and no-match input yields one component.
This is the specification-side yardstick that `ReadTokens` is compared
against. -/
def referenceSplit (find : FindFn) : Nat → List Char → List (List Char)
  | 0, _ => []
  | fuel + 1, data =>
      match find data with
      | some iw => data.take iw.1 :: referenceSplit find fuel (data.drop (iw.1 + iw.2))
      | none => [data]

/-- Modelled from the spec: removing the empty final token that a trailing
delimiter would otherwise produce ("no empty final token for a trailing
delimiter"). -/
def dropFinalEmpty : List (List Char) → List (List Char)
  | [] => []
  | [t] => if t.isEmpty then [] else [t]
  | t :: ts => t :: dropFinalEmpty ts

/-- Drop one trailing carriage return, as `bufio.ScanLines` does through
`dropCR`. -/
def dropTrailCR (t : List Char) : List Char :=
  if t.getLast? = some '\r' then t.dropLast else t

/-- The error taxonomy of errors.go: `ErrInvalid` carries the offending
token and the running byte offset (`Token`/`Index` of `ReaderError`);
`ErrRead` and `ErrClose` wrap a cause, modelled as an opaque numeric id;
a context cancellation error is returned as-is by `StreamTokens`. -/
inductive RdErr where
  | invalid (token : List Char) (index : Nat)
  | readE (cause : Nat)
  | closeE (cause : Nat)
  | ctxCanceled
  deriving DecidableEq, Repr

/-- The `Reader` struct of reader.go.  The input source itself is supplied
separately as the scanned data; `delimiter` is the compiled pattern
(`*regexp.Regexp`, `none` for nil), `delimiterStr` the literal delimiter.
By construction they are never both set. -/
structure GoReader where
  delimiter : Option FindFn
  delimiterStr : List Char
  normalize : Option (List Char → List Char)
  filter : Option (List Char → Bool)
  failOnError : Bool
  failOnInvalid : Bool

/-- ASCII part of `unicode.IsSpace`, enough for the whitespace the tests
exercise. -/
def isSpaceChar (c : Char) : Bool :=
  c = ' ' || c = '\t' || c = '\n' || c = '\r' || c = Char.ofNat 11 || c = Char.ofNat 12

/-- `strings.TrimSpace`: drop leading and trailing whitespace
(`NormalizeTrimSpace` in reader.go). -/
def trimSpace (s : List Char) : List Char :=
  ((s.dropWhile isSpaceChar).reverse.dropWhile isSpaceChar).reverse

/-- `NewReader` of reader.go: newline literal delimiter, no compiled
delimiter, `NormalizeTrimSpace`, no filter, fail on errors, do not fail on
invalid. -/
def newReader : GoReader :=
  { delimiter := none
    delimiterStr := ['\n']
    normalize := some trimSpace
    filter := none
    failOnError := true
    failOnInvalid := false }

/-- Apply the configured normalizer, `token = r.normalize(token)` when one
is set. -/
def applyNorm (r : GoReader) (t : List Char) : List Char :=
  match r.normalize with
  | some nf => nf t
  | none => t

/-- The rejection test `r.filter != nil && !r.filter(token)` of reader.go,
on an already-normalized token. -/
def rejectsN (r : GoReader) (t : List Char) : Bool :=
  match r.filter with
  | some f => !(f t)
  | none => false

/-- The per-token loop body of `ReadTokens` (reader.go): break on an empty
raw token, normalize, filter (error out with `newErrInvalid(token, n)` when
rejected and `FailOnInvalid` is set, or skip), accumulate accepted tokens
and add each processed token's length to the running offset `n`. -/
def processTokens (r : GoReader) : List (List Char) → Nat → List (List Char) × Option RdErr
  | [], _ => ([], none)
  | t :: ts, n =>
      if t.isEmpty then ([], none)
      else
        let t1 := applyNorm r t
        if rejectsN r t1 then
          if r.failOnInvalid then ([], some (RdErr.invalid t1 n))
          else processTokens r ts (n + t1.length)
        else
          let res := processTokens r ts (n + t1.length)
          (t1 :: res.1, res.2)

/-- The token sequence produced by `bufio.Scanner` with the split function
of `createSplitFunc` (reader.go) on the full input: `bufio.ScanLines` when
neither delimiter is set, the compiled pattern when one is set, the literal
delimiter otherwise. -/
def GoReader.scanTokens (r : GoReader) (data : List Char) : List (List Char) :=
  if r.delimiter.isNone && r.delimiterStr.isEmpty then
    (scanFind (strFind ['\n']) (data.length + 1) data).map dropTrailCR
  else
    match r.delimiter with
    | some f => scanFind f (data.length + 1) data
    | none => scanFind (strFind r.delimiterStr) (data.length + 1) data

/-- `ReadTokens` of reader.go on an in-memory source (a pure source: the
scanner reports no read error, so the `FailOnError` branch is dead). -/
def GoReader.readTokens (r : GoReader) (data : List Char) : List (List Char) × Option RdErr :=
  processTokens r (r.scanTokens data) 0

/-- The loop of `StreamTokens` (reader.go).  The `select` racing the
channel send against `ctx.Done()` is modelled by the oracle `cancel`: at
the `k`-th handoff, `cancel k = true` means the cancellation branch is
taken (the function returns `ctx.Err()` and the in-flight token is
dropped), otherwise the send completes.  The first component collects the
tokens actually sent on `out`. -/
def streamLoop (r : GoReader) (cancel : Nat → Bool) :
    List (List Char) → Nat → Nat → List (List Char) × Option RdErr
  | [], _, _ => ([], none)
  | t :: ts, n, k =>
      if t.isEmpty then ([], none)
      else
        let t1 := applyNorm r t
        if rejectsN r t1 then
          if r.failOnInvalid then ([], some (RdErr.invalid t1 n))
          else streamLoop r cancel ts (n + t1.length) k
        else
          if cancel k then ([], some RdErr.ctxCanceled)
          else
            let res := streamLoop r cancel ts (n + t1.length) (k + 1)
            (t1 :: res.1, res.2)

/-- `StreamTokens` of reader.go on an in-memory source: delivered tokens
paired with the returned error. -/
def GoReader.streamTokens (r : GoReader) (cancel : Nat → Bool) (data : List Char) :
    List (List Char) × Option RdErr :=
  streamLoop r cancel (r.scanTokens data) 0 0

/-- A reader configured with only a literal delimiter: no compiled pattern,
no normalizer, no filter (the C1 scenario). -/
def plainReader (sep : List Char) : GoReader :=
  { delimiter := none
    delimiterStr := sep
    normalize := none
    filter := none
    failOnError := true
    failOnInvalid := false }

/-- A reader configured with only a compiled-pattern delimiter
(`SetDelimiter` resets `delimiterStr` to the empty string). -/
def plainReaderRe (f : FindFn) : GoReader :=
  { delimiter := some f
    delimiterStr := []
    normalize := none
    filter := none
    failOnError := true
    failOnInvalid := false }

/-- Total byte length of a token list. -/
def sumLens (l : List (List Char)) : Nat :=
  (l.map List.length).sum

/-!
The `Delimiter` of the token/stop variant (src/unnamed/part_003): a token
`pattern` and a stop `pattern`, each either a literal string or a compiled
expression, with an incremental `SplitFunc` encoding the precedence
between them.
-/

/-- The `pattern` struct of part_003: a compiled expression (`re`, nil as
`none`) or a literal string (`str`); by construction never both. -/
structure Pat where
  re : Option FindFn
  str : List Char

/-- `pattern.enabled`: `p.re != nil || p.str != ""`. -/
def Pat.enabled (p : Pat) : Bool :=
  p.re.isSome || !p.str.isEmpty

/-- The never-both-literal-and-compiled invariant of a `pattern`. -/
def Pat.exclusive (p : Pat) : Bool :=
  !(p.re.isSome && !p.str.isEmpty)

/-- `pattern.find` of part_003: the compiled expression's leftmost match
when one is set, else `bytes.Index` of the literal (width its length),
else no match. -/
def Pat.find (p : Pat) (data : List Char) : Option (Nat × Nat) :=
  match p.re with
  | some f => f data
  | none =>
      if p.str.isEmpty then none
      else (litIndex p.str data).map (fun i => (i, p.str.length))

/-- The `Delimiter` struct of part_003. -/
structure Delim where
  token : Pat
  stop : Pat

/-- `DefaultDelimiter` of part_003: token = literal newline, stop = literal
double newline. -/
def defaultDelimiter : Delim :=
  { token := { re := none, str := ['\n'] }
    stop := { re := none, str := ['\n', '\n'] } }

/-- `NewDelimiter` of part_003: returns `DefaultDelimiter()`. -/
def newDelimiter : Delim :=
  defaultDelimiter

/-- `SetTokenStr` of part_003: `d.token.re = nil; d.token.str = s` with no
empty-string guard. -/
def Delim.setTokenStr (d : Delim) (s : List Char) : Delim :=
  { d with token := { re := none, str := s } }

/-- `SetTokenRegexp` of part_003: `d.token.re = regexpr; d.token.str = ""`
(the argument may be nil). -/
def Delim.setTokenRegexp (d : Delim) (regexpr : Option FindFn) : Delim :=
  { d with token := { re := regexpr, str := [] } }

/-- `SetTokenRegexpFromString` of part_003 after the non-empty check and
`MustCompile` succeed: the compiled matcher is never nil. -/
def Delim.setTokenRegexpFromString (d : Delim) (compiled : FindFn) : Delim :=
  { d with token := { re := some compiled, str := [] } }

/-- `SetStopStr` of part_003. -/
def Delim.setStopStr (d : Delim) (s : List Char) : Delim :=
  { d with stop := { re := none, str := s } }

/-- `SetStopRegexp` of part_003. -/
def Delim.setStopRegexp (d : Delim) (regexpr : Option FindFn) : Delim :=
  { d with stop := { re := regexpr, str := [] } }

/-- `SetStopRegexpFromString` of part_003 after `MustCompile` succeeds. -/
def Delim.setStopRegexpFromString (d : Delim) (compiled : FindFn) : Delim :=
  { d with stop := { re := some compiled, str := [] } }

/-- `WithTokenStr` of part_003 (value receiver, returns the modified
copy). -/
def Delim.withTokenStr (d : Delim) (s : List Char) : Delim :=
  { d with token := { re := none, str := s } }

/-- `WithTokenRegexp` of part_003. -/
def Delim.withTokenRegexp (d : Delim) (regexpr : Option FindFn) : Delim :=
  { d with token := { re := regexpr, str := [] } }

/-- `WithTokenRegexpFromString` of part_003 after the non-empty check and
`MustCompile` succeed: the compiled matcher is never nil. -/
def Delim.withTokenRegexpFromString (d : Delim) (compiled : FindFn) : Delim :=
  { d with token := { re := some compiled, str := [] } }

/-- `WithStopStr` of part_003. -/
def Delim.withStopStr (d : Delim) (s : List Char) : Delim :=
  { d with stop := { re := none, str := s } }

/-- `WithStopRegexp` of part_003. -/
def Delim.withStopRegexp (d : Delim) (regexpr : Option FindFn) : Delim :=
  { d with stop := { re := regexpr, str := [] } }

/-- `WithStopRegexpFromString` of part_003 after the non-empty check and
`MustCompile` succeed. -/
def Delim.withStopRegexpFromString (d : Delim) (compiled : FindFn) : Delim :=
  { d with stop := { re := some compiled, str := [] } }

/-- Result of one call to the split function of `Delimiter.SplitFunc`
(part_003), as seen by `bufio.Scanner`:
`emit advance token` is `(advance, token, nil)` with a non-nil token;
`stopConsume advance` is `(stopW, nil, bufio.ErrFinalToken)` (terminate
without emitting); `finalNone` is `(0, nil, bufio.ErrFinalToken)` at end of
input; `needMore` is `(0, nil, nil)` before end of input. -/
inductive SplitRes where
  | emit (advance : Nat) (token : List Char)
  | stopConsume (advance : Nat)
  | finalNone
  | needMore
  deriving DecidableEq, Repr

/-- `Delimiter.SplitFunc` of part_003, one step: locate the token and stop
matches, let the stop win exactly when it matches and the token does not
or the stop starts strictly earlier (`stopIdx >= 0 && (tokenIdx < 0 ||
stopIdx < tokenIdx)`); a winning stop at a positive index emits the bytes
before it, a winning stop at index zero consumes its width and terminates;
otherwise a token match emits the bytes before it and advances past the
match; otherwise at end of input the whole rest is emitted. -/
def Delim.splitFunc (d : Delim) (data : List Char) (atEOF : Bool) : SplitRes :=
  if atEOF && data.isEmpty then .finalNone
  else
    let tokenM := d.token.find data
    let stopM := if d.stop.enabled then d.stop.find data else none
    match stopM, tokenM with
    | some sw, none =>
        if 0 < sw.1 then .emit sw.1 (data.take sw.1) else .stopConsume sw.2
    | some sw, some tw =>
        if sw.1 < tw.1 then
          if 0 < sw.1 then .emit sw.1 (data.take sw.1) else .stopConsume sw.2
        else .emit (tw.1 + tw.2) (data.take tw.1)
    | none, some tw => .emit (tw.1 + tw.2) (data.take tw.1)
    | none, none => if atEOF then .emit data.length data else .needMore

/-- The `bufio.Scanner` loop over `Delimiter.SplitFunc` with the whole
input buffered (`atEOF = true`): collect emitted tokens until the split
function terminates the scan.  Fuel bounds the recursion; for the literal
patterns used here every emitted token advances by at least one byte, so
`length + 1` suffices. -/
def scanDelimAux (d : Delim) : Nat → List Char → List (List Char)
  | 0, _ => []
  | fuel + 1, data =>
      match d.splitFunc data true with
      | .emit advance tok => tok :: scanDelimAux d fuel (data.drop advance)
      | .stopConsume _ => []
      | .finalNone => []
      | .needMore => []

/-- Full scan with the part_003 `Delimiter`. -/
def scanDelim (d : Delim) (data : List Char) : List (List Char) :=
  scanDelimAux d (data.length + 1) data

/-!
The simpler `Delimiter` of src/unnamed/part_002: one pattern, either a
compiled expression or a literal string, with empty-input guards in its
setters.
-/

/-- The part_002 `Delimiter`: a single regexp-or-string pattern. -/
structure DelimV2 where
  regexpr : Option FindFn
  str : List Char

/-- `SetStr` of part_002: an empty string falls back to the newline
delimiter, then `regexpr` is reset. -/
def DelimV2.setStr (d : DelimV2) (s : List Char) : DelimV2 :=
  let s1 := if s.isEmpty then ['\n'] else s
  { d with regexpr := none, str := s1 }

/-- `SetRegexp` of part_002: a nil argument falls back to a compiled
newline pattern, then `str` is reset. -/
def DelimV2.setRegexp (d : DelimV2) (regexpr : Option FindFn) : DelimV2 :=
  match regexpr with
  | none => { d with regexpr := some (strFind ['\n']), str := [] }
  | some f => { d with regexpr := some f, str := [] }

/-!
The `ReaderCloser` of src/unnamed/part_004: it embeds a `*Reader` and
tracks the closeable input sources in registration order.  Each tracked
resource is modelled by an id paired with the result its `Close()` call
returns (`none` = success, `some cause` = failure).  `Close` is modelled
with an explicit log of the ids whose `Close()` was invoked, in order.
-/

/-- The loop body of `ReaderCloser.Close` (part_004): attempt every
closer in order; record the first failure, wrapped as a Close error, and
keep going.  Returns the ids attempted (in order) and the final
`firstErr`.  The `newErrClose` wrapper itself is missing from the sources
and is modelled from the spec: it tags the cause with the Close kind. -/
def closeAll : List (Nat × Option Nat) → Option RdErr → List Nat × Option RdErr
  | [], firstErr => ([], firstErr)
  | c :: cs, firstErr =>
      let fe := match firstErr, c.2 with
        | none, some cause => some (RdErr.closeE cause)
        | _, _ => firstErr
      let res := closeAll cs fe
      (c.1 :: res.1, res.2)

/-- `ReaderCloser.Close` of part_004: start with no first error. -/
def rcClose (closers : List (Nat × Option Nat)) : List Nat × Option RdErr :=
  closeAll closers none

/-- An input source (`io.Reader` value), as far as identity matters:
standard input, a `strings.Reader`/`bytes.Reader` over some content, or an
`io.MultiReader` over a list of sources. -/
inductive Src where
  | stdin
  | ofString (s : List Char)
  | multi (rs : List Src)

/-- The mutable state of the embedded `*Reader` that `FromString` touches
through the shared pointer: its input source field.  (The other Reader
fields are not written through the pointer by the builder methods.) -/
structure RState where
  reader : Src

/-- The heap: the `Reader` cell each pointer designates, plus the log of
resource ids whose `Close()` has been called so far. -/
structure Heap where
  readers : Nat → RState
  closedLog : List Nat

/-- The `ReaderCloser` struct of part_004: `newR := *rc` copies the
embedded `*Reader` POINTER (`readerRef`) and the `closers` slice header.
Tracked resources are ids here; their close results are irrelevant to the
aliasing behaviour, so the log only records that `Close()` was called. -/
structure RCloser where
  readerRef : Nat
  closers : List Nat

/-- `ReaderCloser.FromString` of part_004, executed against the heap:
`newR := *rc` copies the struct (sharing the embedded `*Reader` pointer
and the closers backing array), then `newR.SetReaders(strings.NewReader(s))`
runs `Close()` on every tracked closer, resets the copy's closer list (a
`strings.Reader` has no `Close` method, so nothing new is tracked), and
finally calls `rc.Reader.SetReaders(...)`, which writes the new
`io.MultiReader` into the SHARED `Reader` cell. -/
def rcFromString (h : Heap) (rc : RCloser) (s : List Char) : RCloser × Heap :=
  let h1 : Heap := { h with closedLog := h.closedLog ++ rc.closers }
  let rc1 : RCloser := { rc with closers := [] }
  let h2 : Heap :=
    { h1 with readers := fun i =>
        if i = rc.readerRef then { h1.readers i with reader := Src.multi [Src.ofString s] }
        else h1.readers i }
  (rc1, h2)

/-- Sample input `"hello\nhi\nworld"`. -/
def helloHiWorld : List Char :=
  ['h', 'e', 'l', 'l', 'o', '\n', 'h', 'i', '\n', 'w', 'o', 'r', 'l', 'd']

/-- A reader with the newline delimiter, no normalizer, a minimum-length-3
filter (`FilterMinLength(3)`) and `FailOnInvalid` set. -/
def minLen3Reader : GoReader :=
  { plainReader ['\n'] with filter := some (fun t => decide (3 ≤ t.length)), failOnInvalid := true }

/-- Sample input `"a\nb\nc"`. -/
def abcLines : List Char := ['a', '\n', 'b', '\n', 'c']

/-- Sample input `"a,,b"`. -/
def aCommaCommaB : List Char := ['a', ',', ',', 'b']

/-- A one-cell heap whose `Reader` reads from standard input. -/
def sampleHeap : Heap :=
  { readers := fun _ => { reader := Src.stdin }, closedLog := [] }

/-- A `ReaderCloser` whose embedded `*Reader` pointer is cell 0 and which
tracks one closeable resource (id 7). -/
def sampleRC : RCloser :=
  { readerRef := 0, closers := [7] }

/-! Helper lemmas. -/

/-- A reported literal match lies inside the buffer. -/
theorem litIndex_bound (sep : List Char) (hsep : sep ≠ []) :
    ∀ (data : List Char) (i : Nat), litIndex sep data = some i → i + sep.length ≤ data.length := by
  intro data
  induction data with
  | nil =>
      intro i h
      have hpre : sep.isPrefixOf ([] : List Char) = false := by
        cases sep with
        | nil => exact absurd rfl hsep
        | cons a l => rfl
      simp only [litIndex, hpre] at h
      simp at h
  | cons c rest ih =>
      intro i h
      simp only [litIndex] at h
      by_cases hpre : sep.isPrefixOf (c :: rest)
      · rw [if_pos hpre] at h
        cases h
        have hp := (List.isPrefixOf_iff_prefix).mp hpre
        simpa using hp.length_le
      · rw [if_neg hpre] at h
        obtain ⟨j, hj, hij⟩ := Option.map_eq_some'.mp h
        have := ih j hj
        simp only [List.length_cons]
        omega

/-- The find function of a non-empty literal delimiter is sane. -/
theorem strFind_sane (sep : List Char) (hsep : sep ≠ []) : saneFind (strFind sep) := by
  intro data i w h
  simp only [strFind, Option.map_eq_some'] at h
  obtain ⟨j, hj, hw⟩ := h
  cases hw
  refine ⟨List.length_pos.mpr hsep, ?_⟩
  exact litIndex_bound sep hsep data _ hj

/-- With no normalizer and no filter, the per-token loop keeps every token
up to the first empty one and never errors. -/
theorem processTokens_plain (r : GoReader) (hn : r.normalize = none) (hf : r.filter = none) :
    ∀ (toks : List (List Char)) (n : Nat),
      processTokens r toks n = (toks.takeWhile (fun t => !t.isEmpty), none) := by
  intro toks
  induction toks with
  | nil => intro n; simp [processTokens]
  | cons t ts ih =>
      intro n
      cases ht : t.isEmpty with
      | true => simp [processTokens, ht, List.takeWhile_cons]
      | false => simp [processTokens, ht, applyNorm, hn, rejectsN, hf, List.takeWhile_cons, ih]

/-- `dropFinalEmpty` passes over a head whose tail is non-empty. -/
theorem dropFinalEmpty_cons_ne (t : List Char) {ts : List (List Char)} (h : ts ≠ []) :
    dropFinalEmpty (t :: ts) = t :: dropFinalEmpty ts := by
  cases ts with
  | nil => exact absurd rfl h
  | cons a l => rfl

/-- The reference split always has at least one component when fuel
remains. -/
theorem referenceSplit_ne_nil (find : FindFn) (fuel : Nat) (data : List Char) (h : 0 < fuel) :
    referenceSplit find fuel data ≠ [] := by
  cases fuel with
  | zero => exact absurd h (Nat.lt_irrefl 0)
  | succ f =>
      cases hf : find data with
      | none => simp [referenceSplit, hf]
      | some iw => simp [referenceSplit, hf]

/-- Core refinement fact: for a sane find function, the scanner's token
sequence truncated at its first empty token equals the reference split
with its trailing empty component removed, whenever the latter has no
empty component. -/
theorem scanFind_ref (find : FindFn) (hsane : saneFind find) :
    ∀ (fuel : Nat) (data : List Char), data.length < fuel →
      (∀ t ∈ dropFinalEmpty (referenceSplit find fuel data), t ≠ []) →
      (scanFind find fuel data).takeWhile (fun t => !t.isEmpty)
        = dropFinalEmpty (referenceSplit find fuel data) := by
  intro fuel
  induction fuel with
  | zero => intro data h _; exact absurd h (Nat.not_lt_zero _)
  | succ f ih =>
      intro data hlen hne
      by_cases hd : data = []
      · subst hd
        have hfind : find [] = none := by
          cases hf : find [] with
          | none => rfl
          | some iw =>
              obtain ⟨hw, hb⟩ := hsane [] iw.1 iw.2 (by rw [hf])
              simp at hb
              omega
        simp [scanFind, referenceSplit, hfind, dropFinalEmpty]
      · have hd' : data.isEmpty = false := List.isEmpty_eq_false.mpr hd
        cases hf : find data with
        | none =>
            simp [scanFind, referenceSplit, hf, hd', dropFinalEmpty, hd]
        | some iw =>
            obtain ⟨hw, hb⟩ := hsane data iw.1 iw.2 (by rw [hf])
            have hlen1 : 1 ≤ data.length := by
              cases data with
              | nil => exact absurd rfl hd
              | cons a l => simp
            have hfpos : 0 < f := by omega
            have hrest : (data.drop (iw.1 + iw.2)).length < f := by
              rw [List.length_drop]; omega
            have href : referenceSplit find f (data.drop (iw.1 + iw.2)) ≠ [] :=
              referenceSplit_ne_nil find f _ hfpos
            have eref : referenceSplit find (f + 1) data
                = data.take iw.1 :: referenceSplit find f (data.drop (iw.1 + iw.2)) := by
              simp [referenceSplit, hf]
            have escan : scanFind find (f + 1) data
                = data.take iw.1 :: scanFind find f (data.drop (iw.1 + iw.2)) := by
              simp [scanFind, hf, hd']
            rw [eref, dropFinalEmpty_cons_ne _ href] at hne ⊢
            have htake : data.take iw.1 ≠ [] := hne _ (List.mem_cons_self _ _)
            have hne' : ∀ t ∈ dropFinalEmpty (referenceSplit find f (data.drop (iw.1 + iw.2))),
                t ≠ [] := fun t ht => hne t (List.mem_cons_of_mem _ ht)
            rw [escan,
              List.takeWhile_cons_of_pos (by simp [List.isEmpty_eq_false.mpr htake]),
              ih _ hrest hne']

/-- `sumLens` over a cons. -/
theorem sumLens_cons (t : List Char) (l : List (List Char)) :
    sumLens (t :: l) = t.length + sumLens l := by
  simp [sumLens]

/-- A prefix of non-empty, accepted tokens is mapped through the
normalizer and contributes its normalized byte lengths to the running
offset before the rest of the list is processed. -/
theorem processTokens_append_accepted (r : GoReader) :
    ∀ (pre rest : List (List Char)) (n : Nat),
      (∀ t ∈ pre, t.isEmpty = false ∧ rejectsN r (applyNorm r t) = false) →
      processTokens r (pre ++ rest) n
        = (pre.map (applyNorm r)
             ++ (processTokens r rest (n + sumLens (pre.map (applyNorm r)))).1,
           (processTokens r rest (n + sumLens (pre.map (applyNorm r)))).2) := by
  intro pre
  induction pre with
  | nil => intro rest n _; simp [sumLens]
  | cons t ts ih =>
      intro rest n h
      have ht := h t (List.mem_cons_self t ts)
      have hts : ∀ u ∈ ts, u.isEmpty = false ∧ rejectsN r (applyNorm r u) = false :=
        fun u hu => h u (List.mem_cons_of_mem t hu)
      have harith : n + (applyNorm r t).length + sumLens (ts.map (applyNorm r))
          = n + sumLens ((t :: ts).map (applyNorm r)) := by
        simp [List.map_cons, sumLens_cons]
        omega
      simp only [List.cons_append, processTokens, ht.1, ht.2, Bool.false_eq_true,
        if_false, List.map_cons, List.append_eq]
      rw [ih rest (n + (applyNorm r t).length) hts]
      rw [harith]
      simp

/-- Rejection at the head of the list with `FailOnInvalid` set returns no
tokens and the Invalid error carrying the normalized token and the current
offset. -/
theorem processTokens_reject_head (r : GoReader) (bad : List Char) (suf : List (List Char))
    (n : Nat) (hb : bad.isEmpty = false) (hr : rejectsN r (applyNorm r bad) = true)
    (hf : r.failOnInvalid = true) :
    processTokens r (bad :: suf) n = ([], some (RdErr.invalid (applyNorm r bad) n)) := by
  simp [processTokens, hb, hr, hf]

/-- Everything after the first empty scanner token is invisible to the
batch loop. -/
theorem processTokens_break (r : GoReader) :
    ∀ (pre suf : List (List Char)) (n : Nat),
      processTokens r (pre ++ [] :: suf) n = processTokens r pre n := by
  intro pre
  induction pre with
  | nil => intro suf n; simp [processTokens]
  | cons t ts ih =>
      intro suf n
      cases ht : t.isEmpty with
      | true => simp [processTokens, ht]
      | false =>
          cases hr : rejectsN r (applyNorm r t) with
          | true =>
              cases hfi : r.failOnInvalid with
              | true => simp [processTokens, ht, hr, hfi]
              | false => simp [processTokens, ht, hr, hfi, ih]
          | false => simp [processTokens, ht, hr, ih]

/-- Everything after the first empty scanner token is invisible to the
streaming loop. -/
theorem streamLoop_break (r : GoReader) (cancel : Nat → Bool) :
    ∀ (pre suf : List (List Char)) (n k : Nat),
      streamLoop r cancel (pre ++ [] :: suf) n k = streamLoop r cancel pre n k := by
  intro pre
  induction pre with
  | nil => intro suf n k; simp [streamLoop]
  | cons t ts ih =>
      intro suf n k
      cases ht : t.isEmpty with
      | true => simp [streamLoop, ht]
      | false =>
          cases hr : rejectsN r (applyNorm r t) with
          | true =>
              cases hfi : r.failOnInvalid with
              | true => simp [streamLoop, ht, hr, hfi]
              | false => simp [streamLoop, ht, hr, hfi, ih]
          | false =>
              cases hc : cancel k with
              | true => simp [streamLoop, ht, hr, hc]
              | false => simp [streamLoop, ht, hr, hc, ih]

/-- The starting offset has no influence on the emitted token sequence. -/
theorem processTokens_fst_offset (r : GoReader) :
    ∀ (toks : List (List Char)) (n₁ n₂ : Nat),
      (processTokens r toks n₁).1 = (processTokens r toks n₂).1 := by
  intro toks
  induction toks with
  | nil => intro _ _; rfl
  | cons t ts ih =>
      intro n₁ n₂
      cases ht : t.isEmpty with
      | true => simp [processTokens, ht]
      | false =>
          cases hr : rejectsN r (applyNorm r t) with
          | true =>
              cases hfi : r.failOnInvalid with
              | true => simp [processTokens, ht, hr, hfi]
              | false => simp only [processTokens, ht, hr, hfi]; exact ih _ _
          | false =>
              simp only [processTokens, ht, hr, Bool.false_eq_true, if_false]
              exact congrArg (List.cons _) (ih _ _)

/-- When the cancellation oracle fires from handoff `K` on and every
scanned token is accepted, the streaming loop delivers exactly the tokens
handed off before `K` and returns the cancellation error. -/
theorem streamLoop_cancelK (r : GoReader) (K : Nat) :
    ∀ (toks : List (List Char)) (k n : Nat),
      (∀ t ∈ toks, t.isEmpty = false ∧ rejectsN r (applyNorm r t) = false) →
      K - k < toks.length →
      streamLoop r (fun j => decide (K ≤ j)) toks n k
        = ((toks.take (K - k)).map (applyNorm r), some RdErr.ctxCanceled) := by
  intro toks
  induction toks with
  | nil => intro k n _ hlt; simp at hlt
  | cons t ts ih =>
      intro k n h hlt
      have ht := h t (List.mem_cons_self t ts)
      have hts : ∀ u ∈ ts, u.isEmpty = false ∧ rejectsN r (applyNorm r u) = false :=
        fun u hu => h u (List.mem_cons_of_mem t hu)
      by_cases hk : K ≤ k
      · have h0 : K - k = 0 := Nat.sub_eq_zero_of_le hk
        have hdec : decide (K ≤ k) = true := decide_eq_true hk
        simp [streamLoop, ht.1, ht.2, hdec, h0]
      · have hdec : decide (K ≤ k) = false := decide_eq_false hk
        have hsub : K - k = (K - (k + 1)) + 1 := by omega
        have hlt' : K - (k + 1) < ts.length := by
          simp only [List.length_cons] at hlt
          omega
        simp only [streamLoop, ht.1, ht.2, hdec, Bool.false_eq_true, if_false]
        rw [ih (k + 1) (n + (applyNorm r t).length) hts hlt']
        rw [hsub, List.take_succ_cons]
        simp

/-- Once the first failure is recorded, the close loop still visits every
remaining resource and keeps that failure. -/
theorem closeAll_some (x : RdErr) :
    ∀ cs : List (Nat × Option Nat), closeAll cs (some x) = (cs.map Prod.fst, some x) := by
  intro cs
  induction cs with
  | nil => rfl
  | cons c cs ih => simp [closeAll, ih]

/-- Starting with no recorded failure, the close loop visits every
resource in order and reports the first failure, wrapped as a Close
error. -/
theorem closeAll_none :
    ∀ cs : List (Nat × Option Nat),
      closeAll cs none = (cs.map Prod.fst, (cs.findSome? Prod.snd).map RdErr.closeE) := by
  intro cs
  induction cs with
  | nil => rfl
  | cons c cs ih =>
      cases hc : c.2 with
      | none => simp [closeAll, hc, ih, List.findSome?_cons]
      | some e => simp [closeAll, hc, List.findSome?_cons, closeAll_some]

/-! Claim theorems. -/

/-- C1, counterexample: with delimiter `","`, no stop boundary, no
normalizer and no filter, `ReadTokens` on `"a,,b"` returns `["a"]`, while
the reference split (with no empty final token) is `["a", "", "b"]` — the
claimed equality fails because the batch loop stops at the first empty
token. -/
theorem claim_C1_counterexample :
    ((plainReader [',']).readTokens aCommaCommaB).1 = [['a']]
    ∧ dropFinalEmpty (referenceSplit (strFind [',']) (aCommaCommaB.length + 1) aCommaCommaB)
        = [['a'], [], ['b']]
    ∧ ((plainReader [',']).readTokens aCommaCommaB).1
        ≠ dropFinalEmpty (referenceSplit (strFind [',']) (aCommaCommaB.length + 1) aCommaCommaB) := by
  decide

/-- C1, amended: for a non-empty literal delimiter, and likewise for a
sane compiled pattern, whenever the reference split of the input contains
no empty component apart from a trailing one, `ReadTokens` with no stop
boundary, no normalizer and no filter returns exactly the reference split
with the trailing empty component removed, and no error. -/
theorem claim_C1_amended :
    (∀ (sep data : List Char), sep ≠ [] →
        (∀ t ∈ dropFinalEmpty (referenceSplit (strFind sep) (data.length + 1) data), t ≠ []) →
        (plainReader sep).readTokens data
          = (dropFinalEmpty (referenceSplit (strFind sep) (data.length + 1) data), none))
    ∧ (∀ (f : FindFn) (data : List Char), saneFind f →
        (∀ t ∈ dropFinalEmpty (referenceSplit f (data.length + 1) data), t ≠ []) →
        (plainReaderRe f).readTokens data
          = (dropFinalEmpty (referenceSplit f (data.length + 1) data), none)) := by
  constructor
  · intro sep data hsep hne
    have hscan : (plainReader sep).scanTokens data
        = scanFind (strFind sep) (data.length + 1) data := by
      simp [GoReader.scanTokens, plainReader, List.isEmpty_eq_false.mpr hsep]
    rw [GoReader.readTokens, hscan, processTokens_plain _ rfl rfl,
      scanFind_ref (strFind sep) (strFind_sane sep hsep) (data.length + 1) data
        (Nat.lt_succ_self _) hne]
  · intro f data hsane hne
    have hscan : (plainReaderRe f).scanTokens data = scanFind f (data.length + 1) data := by
      simp [GoReader.scanTokens, plainReaderRe]
    rw [GoReader.readTokens, hscan, processTokens_plain _ rfl rfl,
      scanFind_ref f hsane (data.length + 1) data (Nat.lt_succ_self _) hne]

/-- C1, witness: the amended statement evaluated at delimiter `","` and
input `"a,b"`. -/
theorem claim_C1_amended_witness :
    (plainReader [',']).readTokens ['a', ',', 'b'] = ([['a'], ['b']], none) := by
  have h := claim_C1_amended.1 [','] ['a', ',', 'b'] (by decide) (by decide)
  rw [h]
  decide

/-- C2, evaluation at the failing input: with the default part_003
delimiter (token `"\n"`, stop `"\n\n"`) on buffer `"ab\n\ncd"` both
patterns match at start index 2 — a tie — yet `SplitFunc` takes the token
branch, returning `(3, "ab", nil)` and continuing the scan instead of the
stop branch's `(2, "ab")`-and-terminate; the full scan then emits tokens
past the stop match.  This contradicts the claimed `stopStart <=
tokenStart` precedence; under the shipped defaults the code's strict `<`
makes the stop branch unreachable. -/
theorem claim_C2_tie :
    defaultDelimiter.token.find ['a', 'b', '\n', '\n', 'c', 'd'] = some (2, 1)
    ∧ defaultDelimiter.stop.find ['a', 'b', '\n', '\n', 'c', 'd'] = some (2, 2)
    ∧ defaultDelimiter.splitFunc ['a', 'b', '\n', '\n', 'c', 'd'] true
        = SplitRes.emit 3 ['a', 'b']
    ∧ defaultDelimiter.splitFunc ['a', 'b', '\n', '\n', 'c', 'd'] true
        ≠ SplitRes.emit 2 ['a', 'b']
    ∧ scanDelim defaultDelimiter ['a', 'b', '\n', '\n', 'c', 'd']
        = [['a', 'b'], [], ['c', 'd']] := by
  decide

/-- C3: when the scanner's token sequence contains an empty token, both
`ReadTokens` and `StreamTokens` behave exactly as if the sequence ended
just before it — every later token is discarded — and when everything
before the empty token is non-empty and accepted, the batch read returns
those tokens with no error. -/
theorem claim_C3 (r : GoReader) (data : List Char) (cancel : Nat → Bool)
    (pre suf : List (List Char)) (hscan : r.scanTokens data = pre ++ [] :: suf) :
    r.readTokens data = processTokens r pre 0
    ∧ r.streamTokens cancel data = streamLoop r cancel pre 0 0
    ∧ ((∀ t ∈ pre, t.isEmpty = false ∧ rejectsN r (applyNorm r t) = false) →
        r.readTokens data = (pre.map (applyNorm r), none)) := by
  refine ⟨?_, ?_, ?_⟩
  · rw [GoReader.readTokens, hscan, processTokens_break]
  · rw [GoReader.streamTokens, hscan, streamLoop_break]
  · intro hacc
    rw [GoReader.readTokens, hscan, processTokens_break]
    have h2 := processTokens_append_accepted r pre [] 0 hacc
    simpa [processTokens] using h2

/-- C3, witness: delimiter `","` on `"a,,b"` scans to `["a", "", "b"]` and
the batch read returns `["a"]` with no error. -/
theorem claim_C3_witness :
    (plainReader [',']).readTokens aCommaCommaB = ([['a']], none) := by
  have h := claim_C3 (plainReader [',']) aCommaCommaB (fun _ => false) [['a']] [['b']] (by decide)
  have h3 := h.2.2 (by decide)
  rw [h3]
  decide

/-- C4, counterexample: the default `Delimiter` of part_003 has its stop
pattern enabled (the double newline), contradicting the claim that the
default configuration has no stop boundary. -/
theorem claim_C4_counterexample : defaultDelimiter.stop.enabled = true := rfl

/-- C4, amended: the default token boundary is a single literal newline in
both `NewReader` (reader.go, whose `Reader` has no stop pattern at all)
and `DefaultDelimiter` (part_003); but `DefaultDelimiter` additionally
enables a stop boundary, the literal double newline. -/
theorem claim_C4_amended :
    newReader.delimiterStr = ['\n']
    ∧ newReader.delimiter = none
    ∧ defaultDelimiter.token.str = ['\n']
    ∧ defaultDelimiter.token.re = none
    ∧ defaultDelimiter.token.enabled = true
    ∧ defaultDelimiter.stop.str = ['\n', '\n']
    ∧ defaultDelimiter.stop.re = none
    ∧ defaultDelimiter.stop.enabled = true :=
  ⟨rfl, rfl, rfl, rfl, rfl, rfl, rfl, rfl⟩

/-- C5: when the filter rejects a normalized token while `FailOnInvalid`
is set and every earlier scanned token was non-empty and accepted,
`ReadTokens` returns exactly the tokens accepted before that point
together with an Invalid error carrying the rejected (normalized) token
and the running byte offset; the tokens after the rejected one never
appear. -/
theorem claim_C5 (r : GoReader) (data : List Char) (pre : List (List Char))
    (bad : List Char) (suf : List (List Char))
    (hscan : r.scanTokens data = pre ++ bad :: suf)
    (hfail : r.failOnInvalid = true)
    (hpre : ∀ t ∈ pre, t.isEmpty = false ∧ rejectsN r (applyNorm r t) = false)
    (hbad : bad.isEmpty = false)
    (hrej : rejectsN r (applyNorm r bad) = true) :
    r.readTokens data
      = (pre.map (applyNorm r),
         some (RdErr.invalid (applyNorm r bad) (sumLens (pre.map (applyNorm r))))) := by
  rw [GoReader.readTokens, hscan, processTokens_append_accepted r pre (bad :: suf) 0 hpre,
    processTokens_reject_head r bad suf _ hbad hrej hfail]
  simp

/-- C5, witness: the spec's fail-fast example — input `"hello\nhi\nworld"`,
filter rejecting length < 3, `FailOnInvalid` set — returns `["hello"]`
plus an Invalid error carrying `"hi"` and offset 5. -/
theorem claim_C5_witness :
    minLen3Reader.readTokens helloHiWorld
      = ([['h', 'e', 'l', 'l', 'o']], some (RdErr.invalid ['h', 'i'] 5)) := by
  have h := claim_C5 minLen3Reader helloHiWorld [['h', 'e', 'l', 'l', 'o']] ['h', 'i']
      [['w', 'o', 'r', 'l', 'd']] (by decide) (by decide) (by decide) (by decide) (by decide)
  rw [h]
  decide

/-- C6: when the cancellation signal has fired from handoff `K` on and
every scanned token is accepted, `StreamTokens` returns the cancellation's
own error, delivers exactly the tokens handed off before `K` (they remain
with the consumer), and the in-flight token and everything after it are
never delivered. -/
theorem claim_C6 (r : GoReader) (data : List Char) (K : Nat)
    (hall : ∀ t ∈ r.scanTokens data, t.isEmpty = false ∧ rejectsN r (applyNorm r t) = false)
    (hK : K < (r.scanTokens data).length) :
    r.streamTokens (fun j => decide (K ≤ j)) data
      = (((r.scanTokens data).take K).map (applyNorm r), some RdErr.ctxCanceled) := by
  rw [GoReader.streamTokens,
    streamLoop_cancelK r K (r.scanTokens data) 0 0 hall (by simpa using hK)]
  simp

/-- C6, witness: streaming `"a\nb\nc"` with cancellation firing at the
second handoff delivers `["a"]` and returns the cancellation error. -/
theorem claim_C6_witness :
    (plainReader ['\n']).streamTokens (fun j => decide (1 ≤ j)) abcLines
      = ([['a']], some RdErr.ctxCanceled) := by
  have h := claim_C6 (plainReader ['\n']) abcLines 1 (by decide) (by decide)
  rw [h]
  decide

/-- C7: the offset carried by an Invalid error is the sum of the byte
lengths of the previously processed (accepted; none can have been skipped
while `FailOnInvalid` is set) tokens only — the delimiter widths consumed
by the scanner never enter it — and the starting offset has no influence
on which tokens are emitted or in which order. -/
theorem claim_C7 :
    (∀ (r : GoReader) (data : List Char) (pre : List (List Char)) (bad : List Char)
        (suf : List (List Char)),
        r.scanTokens data = pre ++ bad :: suf →
        r.failOnInvalid = true →
        (∀ t ∈ pre, t.isEmpty = false ∧ rejectsN r (applyNorm r t) = false) →
        bad.isEmpty = false →
        rejectsN r (applyNorm r bad) = true →
        (r.readTokens data).2
          = some (RdErr.invalid (applyNorm r bad) (sumLens (pre.map (applyNorm r)))))
    ∧ (∀ (r : GoReader) (toks : List (List Char)) (n₁ n₂ : Nat),
        (processTokens r toks n₁).1 = (processTokens r toks n₂).1) := by
  constructor
  · intro r data pre bad suf hscan hfail hpre hbad hrej
    rw [GoReader.readTokens, hscan, processTokens_append_accepted r pre (bad :: suf) 0 hpre,
      processTokens_reject_head r bad suf _ hbad hrej hfail]
    simp
  · exact processTokens_fst_offset

/-- C7, witness: on `"hello\nhi\nworld"` with the length-3 filter the
Invalid offset is 5 = len "hello", with no delimiter byte counted. -/
theorem claim_C7_witness :
    (minLen3Reader.readTokens helloHiWorld).2 = some (RdErr.invalid ['h', 'i'] 5) := by
  have h := claim_C7.1 minLen3Reader helloHiWorld [['h', 'e', 'l', 'l', 'o']] ['h', 'i']
      [['w', 'o', 'r', 'l', 'd']] (by decide) (by decide) (by decide) (by decide) (by decide)
  rw [h]
  decide

/-- C8, counterexample: `SetTokenStr` with the empty string (part_003 has
no empty-string guard) produces a reachable `Delimiter` whose token
pattern is disabled, refuting the claimed always-enabled invariant. -/
theorem claim_C8_counterexample :
    (defaultDelimiter.setTokenStr []).token.enabled = false := rfl

/-- C8, amended: every part_003 constructor and setter — `NewDelimiter`,
`DefaultDelimiter`, the six token operations and the six stop operations —
preserves the never-both-literal-and-compiled invariant on the pattern it
writes while leaving the other pattern untouched, and the token pattern
stays enabled except under `SetTokenStr`/`WithTokenStr` with an empty
string or `SetTokenRegexp`/`WithTokenRegexp` with a nil expression, which
disable it (the `FromString` variants always enable it, and the stop
operations never touch it); the part_002 `SetStr`/`SetRegexp`, by
contrast, guard the empty/nil inputs and keep their single pattern enabled
and exclusive. -/
theorem claim_C8_amended :
    newDelimiter = defaultDelimiter
    ∧ defaultDelimiter.token.exclusive = true
    ∧ defaultDelimiter.stop.exclusive = true
    ∧ defaultDelimiter.token.enabled = true
    ∧ (∀ (d : Delim) (s : List Char),
        (d.setTokenStr s).token.exclusive = true
        ∧ (d.setTokenStr s).stop = d.stop
        ∧ (d.setTokenStr s).token.enabled = !s.isEmpty)
    ∧ (∀ (d : Delim) (m : Option FindFn),
        (d.setTokenRegexp m).token.exclusive = true
        ∧ (d.setTokenRegexp m).stop = d.stop
        ∧ (d.setTokenRegexp m).token.enabled = m.isSome)
    ∧ (∀ (d : Delim) (f : FindFn),
        (d.setTokenRegexpFromString f).token.exclusive = true
        ∧ (d.setTokenRegexpFromString f).stop = d.stop
        ∧ (d.setTokenRegexpFromString f).token.enabled = true)
    ∧ (∀ (d : Delim) (s : List Char),
        (d.withTokenStr s).token.exclusive = true
        ∧ (d.withTokenStr s).stop = d.stop
        ∧ (d.withTokenStr s).token.enabled = !s.isEmpty)
    ∧ (∀ (d : Delim) (m : Option FindFn),
        (d.withTokenRegexp m).token.exclusive = true
        ∧ (d.withTokenRegexp m).stop = d.stop
        ∧ (d.withTokenRegexp m).token.enabled = m.isSome)
    ∧ (∀ (d : Delim) (f : FindFn),
        (d.withTokenRegexpFromString f).token.exclusive = true
        ∧ (d.withTokenRegexpFromString f).stop = d.stop
        ∧ (d.withTokenRegexpFromString f).token.enabled = true)
    ∧ (∀ (d : Delim) (s : List Char),
        (d.setStopStr s).stop.exclusive = true ∧ (d.setStopStr s).token = d.token)
    ∧ (∀ (d : Delim) (m : Option FindFn),
        (d.setStopRegexp m).stop.exclusive = true ∧ (d.setStopRegexp m).token = d.token)
    ∧ (∀ (d : Delim) (f : FindFn),
        (d.setStopRegexpFromString f).stop.exclusive = true
        ∧ (d.setStopRegexpFromString f).token = d.token)
    ∧ (∀ (d : Delim) (s : List Char),
        (d.withStopStr s).stop.exclusive = true ∧ (d.withStopStr s).token = d.token)
    ∧ (∀ (d : Delim) (m : Option FindFn),
        (d.withStopRegexp m).stop.exclusive = true ∧ (d.withStopRegexp m).token = d.token)
    ∧ (∀ (d : Delim) (f : FindFn),
        (d.withStopRegexpFromString f).stop.exclusive = true
        ∧ (d.withStopRegexpFromString f).token = d.token)
    ∧ (∀ (d : DelimV2) (s : List Char),
        (d.setStr s).regexpr = none ∧ (d.setStr s).str.isEmpty = false)
    ∧ (∀ (d : DelimV2) (m : Option FindFn),
        ((d.setRegexp m).regexpr).isSome = true ∧ (d.setRegexp m).str = []) := by
  refine ⟨rfl, rfl, rfl, rfl, ?_, ?_, ?_, ?_, ?_, ?_, ?_, ?_, ?_, ?_, ?_, ?_, ?_, ?_⟩
  · intro d s; exact ⟨rfl, rfl, rfl⟩
  · intro d m; exact ⟨by cases m <;> rfl, rfl, by cases m <;> rfl⟩
  · intro d f; exact ⟨rfl, rfl, rfl⟩
  · intro d s; exact ⟨rfl, rfl, rfl⟩
  · intro d m; exact ⟨by cases m <;> rfl, rfl, by cases m <;> rfl⟩
  · intro d f; exact ⟨rfl, rfl, rfl⟩
  · intro d s; exact ⟨rfl, rfl⟩
  · intro d m; exact ⟨by cases m <;> rfl, rfl⟩
  · intro d f; exact ⟨rfl, rfl⟩
  · intro d s; exact ⟨rfl, rfl⟩
  · intro d m; exact ⟨by cases m <;> rfl, rfl⟩
  · intro d f; exact ⟨rfl, rfl⟩
  · intro d s; cases s with
    | nil => exact ⟨rfl, rfl⟩
    | cons a l => exact ⟨rfl, rfl⟩
  · intro d m; cases m with
    | none => exact ⟨rfl, rfl⟩
    | some f => exact ⟨rfl, rfl⟩

/-- C9: `ReaderCloser.Close` calls `Close()` on every tracked resource in
registration order — also after a failure — and returns the first failure
wrapped as a Close error, or nil when every close succeeds. -/
theorem claim_C9 (closers : List (Nat × Option Nat)) :
    rcClose closers = (closers.map Prod.fst, (closers.findSome? Prod.snd).map RdErr.closeE) :=
  closeAll_none closers

/-- C10, evaluation at the failing input: a `ReaderCloser` whose embedded
`*Reader` is heap cell 0 (reading standard input) and which tracks closer
id 7; after `FromString("x")` the ORIGINAL receiver's underlying `Reader`
now reads from the new string source (the struct copy shares the embedded
pointer and `SetReaders` writes through it) and the original's tracked
resource has been closed — while the claim (and the method's own doc
comment) says the original is left completely unchanged. -/
theorem claim_C10_aliasing :
    ((rcFromString sampleHeap sampleRC ['x']).2.readers sampleRC.readerRef).reader
        = Src.multi [Src.ofString ['x']]
    ∧ (sampleHeap.readers sampleRC.readerRef).reader = Src.stdin
    ∧ (rcFromString sampleHeap sampleRC ['x']).2.closedLog = [7]
    ∧ (rcFromString sampleHeap sampleRC ['x']).1.readerRef = sampleRC.readerRef
    ∧ Src.multi [Src.ofString ['x']] ≠ Src.stdin := by
  refine ⟨rfl, rfl, rfl, rfl, ?_⟩
  intro h
  cases h

end Textio
